import Mathlib

/-!
Verification of the XML schema dependency resolver (`xml_validator.schema.Schema`).

The Python source is embedded shallowly: schema texts are lists of characters,
the regular-expression fragment actually used by the code (literals separated by
greedy `[^"]*` or `[^>]+` gaps) is implemented directly, and the filesystem is
modelled by association lists together with a trace of filesystem operations.
-/

namespace XmlValidator

abbrev Chars := List Char

/-- Length of the longest prefix of `s` whose characters all satisfy `p`. -/
def runLen (p : Char → Bool) : Chars → Nat
  | [] => 0
  | c :: cs => if p c then runLen p cs + 1 else 0

/-- Length of the longest prefix without a double quote: the largest extent a
`[^"]*` gap can span. -/
def quoteFreeLen (s : Chars) : Nat :=
  runLen (fun c => c != '"') s

/-- Lower-casing, used for the `re.IGNORECASE` matching of the import patterns. -/
def lowers (s : Chars) : Chars := s.map Char.toLower

/-- Try to match the literal `p` after a gap of exactly `k` characters, then
continue with `next`; returns the total number of characters consumed from `s`. -/
def gapAttempt (next : Chars → Option Nat) (p : Chars) (s : Chars) (k : Nat) : Option Nat :=
  if p.isPrefixOf (s.drop k) then
    (next (s.drop (k + p.length))).map (fun m => k + p.length + m)
  else none

/-- Greedy backtracking search for the `[^"]*` gap length: try `k`, `k-1`, …, `0`. -/
def tryGapAt (next : Chars → Option Nat) (p : Chars) (s : Chars) : Nat → Option Nat
  | 0 => gapAttempt next p s 0
  | k + 1 =>
    match gapAttempt next p s (k + 1) with
    | some n => some n
    | none => tryGapAt next p s k

/-- Match `[^"]*p₁[^"]*p₂…` (greedy, with backtracking) at the start of `s`,
returning the number of characters consumed. -/
def matchGaps (parts : List Chars) : Chars → Option Nat :=
  parts.foldr (fun p next s => tryGapAt next p s (quoteFreeLen s)) (fun _ => some 0)

/-- Match the anchored pattern `p₀[^"]*p₁[^"]*p₂…` at the start of `s`. -/
def matchSeqAt : List Chars → Chars → Option Nat
  | [], _ => some 0
  | p :: ps, s =>
    if p.isPrefixOf s then (matchGaps ps (s.drop p.length)).map (fun m => p.length + m)
    else none

/-- The scanning loop of `re.sub` with a constant replacement, with a fuel
argument so the recursion is structural: every step consumes at least one
character and one unit of fuel, so `fuel = s.length` is never exhausted.
Every pattern used by the source starts with a non-empty literal, so the
zero-length-match branch is unreachable; it advances one character, which is
also what `re.sub` does on an empty match. -/
def subAllF (parts : List Chars) (repl : Chars) : Nat → Chars → Chars
  | _, [] => []
  | 0, s => s
  | fuel + 1, c :: cs =>
    match matchSeqAt parts (c :: cs) with
    | some (n + 1) => repl ++ subAllF parts repl fuel (cs.drop n)
    | some 0 => c :: subAllF parts repl fuel cs
    | none => c :: subAllF parts repl fuel cs

/-- Python `re.sub` with a constant replacement: scan left to right, replacing
non-overlapping matches. -/
def subAll (parts : List Chars) (repl : Chars) (s : Chars) : Chars :=
  subAllF parts repl s.length s

/-- The literal `schemaLocation="`, lower-cased (for case-insensitive matching). -/
def locLower : Chars := "schemalocation=\"".data

/-- Match `schemaLocation="([^"]+)"` case-insensitively at the start of `s`;
returns the consumed length and the captured attribute value. -/
def matchLocValue (s : Chars) : Option (Nat × Chars) :=
  if lowers (s.take locLower.length) = locLower then
    let rest := s.drop locLower.length
    let v := rest.takeWhile (fun c => c != '"')
    if 0 < v.length ∧ v.length < rest.length then
      some (locLower.length + v.length + 1, v)
    else none
  else none

/-- Greedy backtracking search for the `[^>]+` gap (at least one character):
try gap length `k`, then `k-1`, …, down to `1`. -/
def descendGtGap (s : Chars) : Nat → Option (Nat × Chars)
  | 0 => none
  | k + 1 =>
    match matchLocValue (s.drop (k + 1)) with
    | some (n, v) => some (k + 1 + n, v)
    | none => descendGtGap s k

/-- Match `tag[^>]+schemaLocation="([^"]+)"` (with `re.IGNORECASE`) at the start
of `s`, as in the four patterns of `Schema._extract_dependencies`. -/
def matchImportAt (tag : Chars) (s : Chars) : Option (Nat × Chars) :=
  if lowers (s.take tag.length) = lowers tag then
    let rest := s.drop tag.length
    (descendGtGap rest (runLen (fun c => c != '>') rest)).map
      (fun r => (tag.length + r.1, r.2))
  else none

/-- The scanning loop of `re.findall` for one import/include pattern, with a
fuel argument so the recursion is structural (never exhausted for
`fuel = s.length`). -/
def findAllImportsF (tag : Chars) : Nat → Chars → List Chars
  | _, [] => []
  | 0, _ => []
  | fuel + 1, c :: cs =>
    match matchImportAt tag (c :: cs) with
    | some (n + 1, v) => v :: findAllImportsF tag fuel (cs.drop n)
    | some (0, v) => v :: findAllImportsF tag fuel cs
    | none => findAllImportsF tag fuel cs

/-- `re.findall` for one import/include pattern: non-overlapping left-to-right
matches, returning the captured `schemaLocation` values. -/
def findAllImports (tag : Chars) (s : Chars) : List Chars :=
  findAllImportsF tag s.length s

/-- Split on `/` (POSIX path separator). -/
def splitOnSlash : Chars → List Chars
  | [] => [[]]
  | c :: cs =>
    let r := splitOnSlash cs
    if c = '/' then [] :: r
    else
      match r with
      | [] => [[c]]
      | h :: t => (c :: h) :: t

/-- The single-dot path component, dropped by `pathlib`. -/
def dotLit : Chars := ".".data

/-- `pathlib.PurePath.name`: the last path component, after dropping empty and
`.` components. -/
def pathName (p : Chars) : Chars :=
  ((splitOnSlash p).filter (fun comp => comp != [] && comp != dotLit)).getLastD []

/-- `pathlib.PurePath.suffix`: the final `.`-portion of the name, non-empty only
when the last dot sits strictly inside the name. -/
def pathSuffix (p : Chars) : Chars :=
  let name := pathName p
  let j := runLen (fun c => c != '.') name.reverse
  if 0 < j ∧ j + 1 < name.length then name.drop (name.length - 1 - j) else []

/-- The scanning loop of Python `str.replace`, with a fuel argument so the
recursion is structural (never exhausted for `fuel = s.length`).  The source
only calls it with non-empty `pat`. -/
def replaceAllSubF (pat repl : Chars) : Nat → Chars → Chars
  | _, [] => []
  | 0, s => s
  | fuel + 1, c :: cs =>
    match pat with
    | [] => c :: cs
    | _ :: prest =>
      if pat.isPrefixOf (c :: cs) then
        repl ++ replaceAllSubF pat repl fuel (cs.drop prest.length)
      else c :: replaceAllSubF pat repl fuel cs

/-- Python `str.replace`: replace all non-overlapping occurrences of `pat`,
scanning left to right. -/
def replaceAllSub (pat repl : Chars) (s : Chars) : Chars :=
  replaceAllSubF pat repl s.length s

/-- Deduplication keeping first occurrences, with an accumulator of seen names. -/
def dedupAux (seen : List Chars) : List Chars → List Chars
  | [] => []
  | x :: xs => if x ∈ seen then dedupAux seen xs else x :: dedupAux (x :: seen) xs

/-- A Python `set` built by successive insertions, kept in insertion order. -/
def dedupFirst (l : List Chars) : List Chars := dedupAux [] l

/-- Is `pat` a contiguous substring of `s`? -/
def containsSub (pat : Chars) : Chars → Bool
  | [] => pat.isEmpty
  | c :: cs => pat.isPrefixOf (c :: cs) || containsSub pat cs

/-- The element prefixes of the four dependency-reference patterns
(schema.py lines 95–100). -/
def importTags : List Chars :=
  ["<xs:import".data, "<xs:include".data, "<xsd:import".data, "<xsd:include".data]

/-- The `.xsd` suffix required of a dependency (schema.py line 107). -/
def xsdLit : Chars := ".xsd".data

/-- All `schemaLocation` values matched by the four import/include patterns
(schema.py lines 95–104), in pattern order. -/
def rawLocations (content : Chars) : List Chars :=
  importTags.flatMap (fun t => findAllImports t content)

/-- `Schema._extract_dependencies` (schema.py lines 78–115).  `ex` models
`Path(match).exists()`, i.e. existence of the raw matched path resolved against
the process working directory; the admitted entry is `Path(match).name`. -/
def extract_dependencies (ex : Chars → Bool) (content : Chars) : List Chars :=
  dedupFirst
    (((rawLocations content).filter (fun m => pathSuffix m == xsdLit && ex m)).map pathName)

/-- The literal `schemaLocation="` (exact case; `_fix_schema_imports` does not
use `re.IGNORECASE`). -/
def locLit : Chars := "schemaLocation=\"".data

/-- The literal `-Schema.xsd` stripped when computing a base name (line 335). -/
def schemaXsdLit : Chars := "-Schema.xsd".data

/-- `base_name` computation of `_fix_schema_imports` (lines 335–336): remove all
occurrences of `-Schema.xsd`, then of `.xsd`. -/
def baseName (dep : Chars) : Chars :=
  replaceAllSub xsdLit [] (replaceAllSub schemaXsdLit [] dep)

/-- The quote character terminating a `schemaLocation` value. -/
def quoteChar : Char := '"'

/-- The path separator used by the rewrite patterns. -/
def slashChar : Char := '/'

/-- The four `re.sub` patterns for one dependency (lines 339–351), each as an
anchored literal followed by literals separated by `[^"]*` gaps. -/
def depPatterns (dep : Chars) : List (List Chars) :=
  [ [locLit, dep ++ [quoteChar]],
    [locLit, slashChar :: baseName dep, xsdLit ++ [quoteChar]],
    [locLit, slashChar :: (dep ++ [quoteChar])],
    [locLit, (slashChar :: baseName dep) ++ [slashChar], [quoteChar]] ]

/-- The common replacement text `schemaLocation="{dep}"`. -/
def depReplacement (dep : Chars) : Chars := locLit ++ dep ++ [quoteChar]

/-- `Schema._fix_schema_imports` (schema.py lines 314–356): for each dependency,
apply its four substitutions in order over the whole text. -/
def fix_schema_imports (content : Chars) (dependencies : List Chars) : Chars :=
  dependencies.foldl
    (fun acc dep =>
      (depPatterns dep).foldl (fun a parts => subAll parts (depReplacement dep) a) acc)
    content

/-- The `schemaLocation` attribute values of a text: at every occurrence of the
literal `schemaLocation="`, the run of characters up to the next quote. -/
def schemaLocations : Chars → List Chars
  | [] => []
  | c :: cs =>
    if locLit.isPrefixOf (c :: cs) then
      ((c :: cs).drop locLit.length).takeWhile (fun x => x != '"') :: schemaLocations cs
    else schemaLocations cs

/-- A dependency tree (`Dict[str, Dict]` in the source): a mapping from
dependency filename to its own subtree, in insertion order. -/
inductive DepTree where
  | node : List (Chars × DepTree) → DepTree

mutual
/-- `Schema._get_all_deps_from_tree` (schema.py lines 222–239), as a list with
possible duplicates; `dep_count` below takes the number of distinct entries,
matching the Python set. -/
def get_all_deps_from_tree : DepTree → List Chars
  | .node children => depsOfChildren children

/-- Collect the names and recursive dependencies of a list of subtrees. -/
def depsOfChildren : List (Chars × DepTree) → List Chars
  | [] => []
  | (n, t) :: rest => n :: (get_all_deps_from_tree t ++ depsOfChildren rest)
end

/-- The shared per-pass state: `existing_trees` and `analyzed_schemas`
(the AnalysisState of the design). -/
structure AnalysisState where
  existing : List (Chars × DepTree)
  analyzed : List Chars

/-- `set.add`: insert a name if absent. -/
def insertName (n : Chars) (l : List Chars) : List Chars :=
  if n ∈ l then l else n :: l

/-- The body of the `for dep_filename in direct_dependencies` loop of
`_build_dep_tree` (lines 143–158), parameterized by the recursive call for
subtree construction: reuse an existing tree, skip an in-progress (circular)
name, recurse into an existing unanalyzed file, ignore a missing file. -/
def depStep (folder : List (Chars × Chars))
    (recurse : Chars → AnalysisState → List (Chars × DepTree) × AnalysisState)
    (acc : List (Chars × DepTree) × AnalysisState) (d : Chars) :
    List (Chars × DepTree) × AnalysisState :=
  match acc.2.existing.lookup d with
  | some t => (acc.1 ++ [(d, t)], acc.2)
  | none =>
    if d ∈ acc.2.analyzed then acc
    else if (folder.lookup d).isSome then
      let c := recurse d acc.2
      let t := DepTree.node c.1
      (acc.1 ++ [(d, t)], { existing := c.2.existing ++ [(d, t)], analyzed := c.2.analyzed })
    else acc

/-- `Schema._build_dep_tree` (schema.py lines 117–160).  The schema folder is an
association list from filename to content; `ex` is the working-directory
existence oracle used by `_extract_dependencies`.  `fuel` bounds the recursion
depth only so that Lean accepts the definition; every nested call made by the
source is on a folder entry that was not yet analyzed, so any fuel above the
folder size is never exhausted (the fuel-zero branch returns an empty tree). -/
def build_dep_tree (folder : List (Chars × Chars)) (ex : Chars → Bool) :
    Nat → Chars → AnalysisState → List (Chars × DepTree) × AnalysisState
  | 0, _, st => ([], st)
  | fuel + 1, name, st =>
    let st1 : AnalysisState := { st with analyzed := insertName name st.analyzed }
    let content := (folder.lookup name).getD []
    (extract_dependencies ex content).foldl
      (depStep folder (fun d st2 => build_dep_tree folder ex fuel d st2)) ([], st1)

/-- The driver loop of `Schema._analyze_schemas` (schema.py lines 174–181):
build one dependency tree per not-yet-analyzed discovered schema, threading the
shared `existing_trees`/`analyzed_schemas` state (the two alias the same dict
in the source, so each completed root tree is appended to `existing`). -/
def analyze_trees (folder : List (Chars × Chars)) (ex : Chars → Bool)
    (schemas : List Chars) : AnalysisState :=
  schemas.foldl
    (fun st name =>
      if name ∈ st.analyzed then st
      else
        let c := build_dep_tree folder ex (folder.length + 1) name st
        { c.2 with existing := c.2.existing ++ [(name, DepTree.node c.1)] })
    ⟨[], []⟩

/-- `len(self._get_all_deps_from_tree(dep_trees.get(name, {})))` (lines 209–210):
number of distinct filenames in the tree recorded for `name`. -/
def dep_count (trees : List (Chars × DepTree)) (name : Chars) : Nat :=
  (dedupFirst (get_all_deps_from_tree ((trees.lookup name).getD (.node [])))).length

/-- One step of the selection loop of `_determine_main_schema` (lines 208–213):
replace the candidate only on a strictly larger dependency count. -/
def select_step (trees : List (Chars × DepTree)) (acc : Chars × Int) (name : Chars) :
    Chars × Int :=
  if acc.2 < (dep_count trees name : Int) then (name, (dep_count trees name : Int)) else acc

/-- `Schema._determine_main_schema` (schema.py lines 184–220); `none` models the
`RuntimeError` raised on an empty schema list.  `max_deps` starts at `-1`, so the
first iteration always replaces the initial candidate. -/
def determine_main_schema (all : List Chars) (trees : List (Chars × DepTree)) :
    Option (Chars × List Chars) :=
  match all with
  | [] => none
  | first :: _ =>
    let sel := all.foldl (select_step trees) (first, (-1 : Int))
    some (sel.1, all.filter (fun s => s != sel.1))

/-- The Python exception surfacing from `Schema.__init__`. -/
inductive PyErr where
  | fileNotFoundError (msg : Chars)
  | valueError (msg : Chars)
  | permissionError (msg : Chars)
  | runtimeError (msg : Chars)
  | attributeError (msg : Chars)
deriving DecidableEq

/-- Outcome of handing the sandboxed main schema to lxml (`etree.parse` followed
by `etree.XMLSchema`): success, an `XMLSyntaxError` from parsing, or an
`XMLSchemaParseError` from schema compilation. -/
inductive LoadOutcome where
  | ok
  | xmlSyntaxError (msg : Chars)
  | schemaParseError (msg : Chars)

/-- The two directories a run can address. -/
inductive FsDir where
  | schemaFolder
  | tempDir
deriving DecidableEq

/-- A filesystem operation performed by one `Schema` construction. -/
inductive FsOp where
  | listDir (d : FsDir)
  | readFile (d : FsDir) (name : Chars)
  | writeFile (d : FsDir) (name : Chars) (content : Chars)
  | mkdtemp
  | rmTree (d : FsDir)
deriving DecidableEq

/-- The observable filesystem: the original schema folder's files, and the
temporary sandbox directory (`none` while it does not exist). -/
structure World where
  folderFiles : List (Chars × Chars)
  tempFiles : Option (List (Chars × Chars))
deriving DecidableEq

/-- Create-or-overwrite a file in a directory listing. -/
def setAssoc : List (Chars × Chars) → Chars → Chars → List (Chars × Chars)
  | [], n, c => [(n, c)]
  | (k, v) :: rest, n, c =>
    if k = n then (n, c) :: rest else (k, v) :: setAssoc rest n c

/-- Semantics of one filesystem operation. -/
def applyOp (w : World) : FsOp → World
  | .listDir _ => w
  | .readFile _ _ => w
  | .writeFile .schemaFolder n c => { w with folderFiles := setAssoc w.folderFiles n c }
  | .writeFile .tempDir n c => { w with tempFiles := w.tempFiles.map (fun m => setAssoc m n c) }
  | .mkdtemp => { w with tempFiles := some [] }
  | .rmTree .schemaFolder => { w with folderFiles := [] }
  | .rmTree .tempDir => { w with tempFiles := none }

/-- Run a trace of filesystem operations. -/
def applyTrace (w : World) (ops : List FsOp) : World := ops.foldl applyOp w

/-- The `stat` facts consulted by `Schema._validate_folder`: the folder path
exists, is a directory, and its contents can be listed. -/
structure FolderStat where
  present : Bool
  isDir : Bool
  listable : Bool

/-- `Schema._discover_schemas` (schema.py lines 59–76): the names produced by
`glob("*.xsd")`, i.e. the folder entries whose name ends in `.xsd`, in listing
order. -/
def discover_schemas (folder : List (Chars × Chars)) : List Chars :=
  (folder.map Prod.fst).filter (fun n => xsdLit.isSuffixOf n)

/-- Message of the `FileNotFoundError` for a missing folder (line 45). -/
def folderNotFoundMsg (path : Chars) : Chars := "Schema folder not found: ".data ++ path

/-- Message of the `ValueError` for a non-directory path (line 50). -/
def notADirectoryMsg (path : Chars) : Chars := "Path is not a directory: ".data ++ path

/-- Message of the `PermissionError` for an unlistable folder (line 55). -/
def cannotAccessMsg (path : Chars) : Chars := "Cannot access schema folder: ".data ++ path

/-- Message of the `FileNotFoundError` for an empty discovery set (line 72). -/
def noXsdMsg (path : Chars) : Chars := "No .xsd files found in folder: ".data ++ path

/-- Message of the `RuntimeError` of `_determine_main_schema` (line 202). -/
def noSchemasMsg : Chars := "No schemas found to analyze.".data

/-- The `RuntimeError` wrapper prefix of `_load_schema`'s generic handler
(line 277). -/
def failedLoadPrefix : Chars := "Failed to load schema: ".data

/-- The `RuntimeError` produced when copying hits a missing dependency file: the
`FileNotFoundError` from `open` (line 300), wrapped by line 277.  The embedded
`errno` text stands in for CPython's file-specific message. -/
def failedLoadMissingMsg : Chars :=
  failedLoadPrefix ++ "[Errno 2] No such file or directory".data

/-- The `AttributeError` raised inside the `XMLSchemaParseError` handler of
`_load_schema` (lines 271–274): the handler's f-string evaluates
`self.schema.name` while `self.schema` is still `None`, so the re-raise never
happens and this error escapes instead. -/
def noneTypeNameMsg : Chars :=
  "\x27NoneType\x27 object has no attribute \x27name\x27".data

/-- The copy loop of `Schema._create_temp_schema_copy` (schema.py lines
294–309): per file, read the original, rewrite its imports, write the copy into
the sandbox.  Returns the emitted operations and whether every file could be
read; a missing original makes `open` raise `FileNotFoundError` (line 300),
stopping the loop. -/
def copy_loop (folder : List (Chars × Chars)) (deps : List Chars) :
    List Chars → List FsOp × Bool
  | [] => ([], true)
  | f :: fs =>
    match folder.lookup f with
    | none => ([], false)
    | some content =>
      let r := copy_loop folder deps fs
      (.readFile .schemaFolder f ::
        .writeFile .tempDir f (fix_schema_imports content deps) :: r.1, r.2)

/-- `Schema.__init__` (schema.py lines 17–33) together with `_validate_folder`,
`_discover_schemas`, `_analyze_schemas`, `_load_schema`,
`_create_temp_schema_copy` and `_clean_temp_files`, over the abstract
filesystem.  `ex` models `Path(p).exists()` for raw schemaLocation paths
(resolved against the process working directory); `engine` models lxml
processing the sandboxed main schema.  Returns the surfaced outcome and the
trace of filesystem operations performed; note that `_clean_temp_files` is only
reached on the fully successful path (line 33 — there is no `try/finally`). -/
def schemaInit (path : Chars) (stat : FolderStat) (folder : List (Chars × Chars))
    (ex : Chars → Bool) (engine : Chars → LoadOutcome) :
    Except PyErr Unit × List FsOp :=
  if !stat.present then
    (.error (.fileNotFoundError (folderNotFoundMsg path)), [])
  else if !stat.isDir then
    (.error (.valueError (notADirectoryMsg path)), [])
  else if !stat.listable then
    (.error (.permissionError (cannotAccessMsg path)), [.listDir .schemaFolder])
  else
    let ops0 : List FsOp := [.listDir .schemaFolder, .listDir .schemaFolder]
    let discovered := discover_schemas folder
    if discovered.isEmpty then
      (.error (.fileNotFoundError (noXsdMsg path)), ops0)
    else
      let st := analyze_trees folder ex discovered
      let ops1 := ops0 ++ st.analyzed.map (fun n => FsOp.readFile .schemaFolder n)
      match determine_main_schema discovered st.existing with
      | none => (.error (.runtimeError noSchemasMsg), ops1)
      | some (main, deps) =>
        let cp := copy_loop folder deps (main :: deps)
        let ops2 := ops1 ++ FsOp.mkdtemp :: cp.1
        if !cp.2 then
          (.error (.runtimeError failedLoadMissingMsg), ops2)
        else
          match folder.lookup main with
          | none => (.error (.runtimeError failedLoadMissingMsg), ops2)
          | some mainContent =>
            let ops3 := ops2 ++ [.readFile .tempDir main]
            match engine (fix_schema_imports mainContent deps) with
            | .ok => (.ok (), ops3 ++ [.rmTree .tempDir])
            | .xmlSyntaxError m =>
              (.error (.runtimeError (failedLoadPrefix ++ m)), ops3)
            | .schemaParseError _ =>
              (.error (.attributeError noneTypeNameMsg), ops3)

/-- Does an operation write into (or remove) the original schema folder? -/
def opTouchesFolder : FsOp → Bool
  | .writeFile .schemaFolder _ _ => true
  | .rmTree .schemaFolder => true
  | _ => false

/-- An existence oracle for a working directory containing none of the
referenced paths. -/
def exNone : Chars → Bool := fun _ => false

/-- An existence oracle for a working directory containing every referenced
path. -/
def exAll : Chars → Bool := fun _ => true

/-- A `stat` for a readable schema directory. -/
def statOk : FolderStat := ⟨true, true, true⟩

/-- The folder path used by the concrete scenarios. -/
def egPath : Chars := "schemas".data

/-- A minimal well-formed schema text with no imports. -/
def egPlainSchema : Chars :=
  "<?xml version=\"1.0\"?><xs:schema xmlns:xs=\"http://www.w3.org/2001/XMLSchema\"/>".data

/-- A schema text importing `Common-Schema.xsd` by bare filename. -/
def egBareImport : Chars :=
  "<xs:import namespace=\"urn:x\" schemaLocation=\"Common-Schema.xsd\"/>".data

/-- A schema text including an absolute path outside the schema folder. -/
def egOutsideImport : Chars :=
  "<xsd:include schemaLocation=\"/other/v2/Types.xsd\"/>".data

/-- The filename `Common-Schema.xsd`. -/
def commonName : Chars := "Common-Schema.xsd".data

/-- The filename `Types.xsd`. -/
def typesName : Chars := "Types.xsd".data

/-- The filename `Main-Schema.xsd`. -/
def mainName : Chars := "Main-Schema.xsd".data

/-- A folder holding only `Common-Schema.xsd`. -/
def egFolderCommon : List (Chars × Chars) := [(commonName, egPlainSchema)]

/-- A folder holding only a plain `FSA029-Schema.xsd`. -/
def egFolderSingle : List (Chars × Chars) := [("FSA029-Schema.xsd".data, egPlainSchema)]

/-- The main-schema text of the end-to-end scenario: it imports
`../v1/Common-Schema.xsd` through a version-folder relative path. -/
def egMainText : Chars :=
  ("<?xml version=\"1.0\"?><xs:schema xmlns:xs=\"http://www.w3.org/2001/XMLSchema\">" ++
   "<xs:import namespace=\"urn:common\" schemaLocation=\"../v1/Common-Schema.xsd\"/>" ++
   "</xs:schema>").data

/-- The two-file folder of the end-to-end scenario. -/
def egFolderMainCommon : List (Chars × Chars) :=
  [(mainName, egMainText), (commonName, egPlainSchema)]

/-- The normalized reference the sandboxed main schema must contain. -/
def egFixedRef : Chars := "schemaLocation=\"Common-Schema.xsd\"".data

/-- The version-folder fragment that must be gone after normalization. -/
def egVersionDir : Chars := "../v1/".data

/-- An engine whose schema compilation fails with `XMLSchemaParseError`. -/
def engineParseErr : Chars → LoadOutcome := fun _ => .schemaParseError ("invalid xsd".data)

/-- An engine whose XML parsing fails with `XMLSyntaxError`. -/
def engineSyntaxErr : Chars → LoadOutcome := fun _ => .xmlSyntaxError ("invalid xml".data)

/-- An engine that accepts the schema. -/
def engineOk : Chars → LoadOutcome := fun _ => .ok

/-- A bare reference that merely ends in the dependency filename
`Common-Schema.xsd` without being equal to it. -/
def egSubCommonText : Chars :=
  "<xs:include schemaLocation=\"Sub-Common-Schema.xsd\"/>".data

/-- A text whose only reference is exactly the bare dependency filename. -/
def egBareCommonText : Chars :=
  "<xs:include schemaLocation=\"Common-Schema.xsd\"/>".data

/-- The filename `A.xsd` of the circular-import pair. -/
def aName : Chars := "A.xsd".data

/-- The filename `B.xsd` of the circular-import pair. -/
def bName : Chars := "B.xsd".data

/-- `A.xsd`: includes `B.xsd`. -/
def aText : Chars := "<xs:include schemaLocation=\"B.xsd\"/>".data

/-- `B.xsd`: includes `A.xsd` (the cycle). -/
def bText : Chars := "<xs:include schemaLocation=\"A.xsd\"/>".data

/-- The circular two-file folder. -/
def egFolderCycle : List (Chars × Chars) := [(aName, aText), (bName, bText)]

/-- The filename `X.xsd` of the selector scenario. -/
def xName : Chars := "X.xsd".data

/-- The filename `Y.xsd` of the selector scenario. -/
def yName : Chars := "Y.xsd".data

/-- The filename `Z.xsd` of the selector scenario. -/
def zName : Chars := "Z.xsd".data

/-- Dependency trees for the selector scenario: `X` reaches `Y` and `Z`,
which reach nothing. -/
def egSelTrees : List (Chars × DepTree) :=
  [(xName, DepTree.node [(yName, DepTree.node []), (zName, DepTree.node [])]),
   (yName, DepTree.node []), (zName, DepTree.node [])]

/-- The single (bare) reference of `egSubCommonText`. -/
def egSubCommonRef : Chars := "Sub-Common-Schema.xsd".data

instance : DecidableEq (Except PyErr Unit) := fun a b =>
  match a, b with
  | .ok (), .ok () => .isTrue rfl
  | .error x, .error y => if h : x = y then .isTrue (by rw [h]) else .isFalse (by simp [h])
  | .ok _, .error _ => .isFalse (by simp)
  | .error _, .ok _ => .isFalse (by simp)

/-- C10: for every input text, applying the Import-Path Normalizer with an empty
dependency list is the identity: the returned text equals the input text,
whatever schemaLocation attributes or malformed content it contains.  The
`for dep_filename in dep_filenames` loop of `_fix_schema_imports` has no
iterations, so the accumulated text is returned untouched. -/
theorem fix_schema_imports_empty_deps (content : Chars) :
    fix_schema_imports content [] = content := rfl

/-- C1: the Dependency Extractor does keep only the base filename and require
the `.xsd` suffix, but the admission test is `Path(match).exists()` — existence
of the raw matched path relative to the process working directory — not
existence of the base filename in the schema folder, contradicting the
comment `Only add if it's a .xsd file that exists in our folder` above
schema.py line 107.  Concretely: a reference to `Common-Schema.xsd`, which is
present in the folder, is discarded when the working directory lacks it, and a
reference to `/other/v2/Types.xsd`, absent from the folder, is admitted as
`Types.xsd` when that outside path exists. -/
theorem extract_dependencies_cwd_check :
    rawLocations egBareImport = [commonName] ∧
    pathSuffix commonName = xsdLit ∧
    (egFolderCommon.lookup commonName).isSome = true ∧
    extract_dependencies exNone egBareImport = [] ∧
    extract_dependencies exAll egOutsideImport = [typesName] ∧
    egFolderCommon.lookup typesName = none := by decide

set_option maxRecDepth 40000 in
/-- C3: for a folder of exactly `Main-Schema.xsd` (whose text imports
`../v1/Common-Schema.xsd`) and `Common-Schema.xsd` (no imports), after
materialization the sandboxed copy of `Main-Schema.xsd` contains
`schemaLocation="Common-Schema.xsd"` and no occurrence of `../v1/`. -/
theorem materialize_end_to_end :
    (copy_loop egFolderMainCommon [commonName] [mainName, commonName]).2 = true ∧
    ((applyTrace ⟨egFolderMainCommon, none⟩
        (FsOp.mkdtemp ::
          (copy_loop egFolderMainCommon [commonName] [mainName, commonName]).1)).tempFiles.getD
        []).lookup mainName = some (fix_schema_imports egMainText [commonName]) ∧
    containsSub egFixedRef (fix_schema_imports egMainText [commonName]) = true ∧
    containsSub egVersionDir (fix_schema_imports egMainText [commonName]) = false := by decide

/-- C5: when compilation of the materialized main schema fails, the failure is
not surfaced as `XMLSchemaParseError`.  On an XSD rule violation the re-raise
handler of `_load_schema` (lines 271–274) evaluates `self.schema.name` with
`self.schema` still `None`, so an `AttributeError` escapes instead; on
malformed XML the `XMLSyntaxError` is caught by the generic handler and wrapped
into a `RuntimeError`.  This contradicts the function's own docstring
(`Raises: etree.XMLSchemaParseError: If schema cannot be parsed`). -/
theorem load_schema_parse_error_masked :
    (schemaInit egPath statOk egFolderSingle exNone engineParseErr).1 =
      .error (.attributeError noneTypeNameMsg) ∧
    (schemaInit egPath statOk egFolderSingle exNone engineSyntaxErr).1 =
      .error (.runtimeError (failedLoadPrefix ++ ("invalid xml".data))) := by decide

/-- C2 counterexample: a `Schema` construction whose schema compilation fails
leaves the temporary sandbox directory on disk — `_clean_temp_files` is called
only after `_load_schema` succeeds (schema.py line 33), with no `try/finally`,
so the cleanup step is not unconditional. -/
theorem schemaInit_cleanup_counterexample :
    (schemaInit egPath statOk egFolderSingle exNone engineParseErr).1 ≠ .ok () ∧
    (applyTrace ⟨egFolderSingle, none⟩
        (schemaInit egPath statOk egFolderSingle exNone engineParseErr).2).tempFiles.isSome =
      true := by decide

/-- C8 counterexample: a text whose only schemaLocation reference is the bare
filename `Sub-Common-Schema.xsd` (no path prefix) is still rewritten when
`Common-Schema.xsd` is a dependency, because the first substitution pattern
matches any value merely ending in the dependency filename; the normalizer is
therefore not a no-op on already-normalized text. -/
theorem fix_schema_imports_not_noop :
    schemaLocations egSubCommonText = [egSubCommonRef] ∧
    slashChar ∉ egSubCommonRef ∧
    fix_schema_imports egSubCommonText [commonName] ≠ egSubCommonText := by decide

/-- C6: for any pair of schema files `A` and `B` whose texts import each other,
tree building terminates — the result of `_build_dep_tree` is the same for
every recursion-depth budget of at least two, i.e. the recursion bottoms out —
and produces finite trees for both (`{B: {}}` for `A` and `{}` for `B`): the
in-progress `analyzed_schemas` set makes the nested call for `B` omit the
back-reference to `A`, so no produced tree contains a cycle. -/
theorem build_dep_tree_cycle_safe (A B cA cB : Chars) (ex : Chars → Bool)
    (hne : A ≠ B)
    (hA : extract_dependencies ex cA = [B])
    (hB : extract_dependencies ex cB = [A]) :
    (∀ f : Nat,
      build_dep_tree [(A, cA), (B, cB)] ex (f + 2) A ⟨[], []⟩ =
        ([(B, DepTree.node [])], ⟨[(B, DepTree.node [])], [B, A]⟩)) ∧
    (analyze_trees [(A, cA), (B, cB)] ex [A, B]).existing =
      [(B, DepTree.node []), (A, DepTree.node [(B, DepTree.node [])])] ∧
    A ∉ get_all_deps_from_tree (DepTree.node [(B, DepTree.node [])]) ∧
    B ∉ get_all_deps_from_tree (DepTree.node []) := by
  have hBA : (B == A) = false := beq_eq_false_iff_ne.mpr (Ne.symm hne)
  have hAB : (A == B) = false := beq_eq_false_iff_ne.mpr hne
  have key : ∀ f : Nat,
      build_dep_tree [(A, cA), (B, cB)] ex (f + 2) A ⟨[], []⟩ =
        ([(B, DepTree.node [])], ⟨[(B, DepTree.node [])], [B, A]⟩) := by
    intro f
    simp [build_dep_tree, insertName, depStep, List.lookup, hA, hB, hBA, hAB, hne, Ne.symm hne]
  refine ⟨key, ?_, ?_, ?_⟩
  · have h3 : (([(A, cA), (B, cB)] : List (Chars × Chars)).length + 1) = 1 + 2 := by simp
    simp [analyze_trees, h3, key 1]
  · simp [get_all_deps_from_tree, depsOfChildren, hne]
  · simp [get_all_deps_from_tree, depsOfChildren]

/-- Witness for C6: the concrete circular pair `A.xsd` ↔ `B.xsd`, with depth
budget 3. -/
theorem build_dep_tree_cycle_safe_witness :
    build_dep_tree egFolderCycle exAll 3 aName ⟨[], []⟩ =
      ([(bName, DepTree.node [])], ⟨[(bName, DepTree.node [])], [bName, aName]⟩) :=
  (build_dep_tree_cycle_safe aName bName aText bText exAll (by decide) (by decide)
    (by decide)).1 1

/-- Running a concatenated trace runs the two halves in order. -/
theorem applyTrace_append (w : World) (l1 l2 : List FsOp) :
    applyTrace w (l1 ++ l2) = applyTrace (applyTrace w l1) l2 := by
  simp [applyTrace, List.foldl_append]

/-- Running a trace starts with its first operation. -/
theorem applyTrace_cons (w : World) (op : FsOp) (rest : List FsOp) :
    applyTrace w (op :: rest) = applyTrace (applyOp w op) rest := rfl

/-- An operation that does not touch the schema folder preserves its contents. -/
theorem applyOp_folder_eq (w : World) (op : FsOp) (h : opTouchesFolder op = false) :
    (applyOp w op).folderFiles = w.folderFiles := by
  cases op with
  | listDir d => rfl
  | readFile d n => rfl
  | writeFile d n c =>
    cases d with
    | schemaFolder => simp [opTouchesFolder] at h
    | tempDir => rfl
  | mkdtemp => rfl
  | rmTree d =>
    cases d with
    | schemaFolder => simp [opTouchesFolder] at h
    | tempDir => rfl

/-- A trace none of whose operations touches the schema folder preserves it. -/
theorem applyTrace_folder_eq (ops : List FsOp) :
    ∀ w : World, (∀ op ∈ ops, opTouchesFolder op = false) →
      (applyTrace w ops).folderFiles = w.folderFiles := by
  induction ops with
  | nil => intro w _; rfl
  | cons op rest ih =>
    intro w h
    have h1 := h op (List.mem_cons_self op rest)
    have h2 : ∀ o ∈ rest, opTouchesFolder o = false :=
      fun o ho => h o (List.mem_cons_of_mem _ ho)
    calc (applyTrace w (op :: rest)).folderFiles
        = (applyTrace (applyOp w op) rest).folderFiles := rfl
      _ = (applyOp w op).folderFiles := ih (applyOp w op) h2
      _ = w.folderFiles := applyOp_folder_eq w op h1

/-- A trace that never removes the sandbox preserves its existence. -/
theorem applyTrace_temp_isSome (ops : List FsOp) :
    ∀ w : World, (∀ op ∈ ops, op ≠ FsOp.rmTree FsDir.tempDir) →
      w.tempFiles.isSome = true → (applyTrace w ops).tempFiles.isSome = true := by
  induction ops with
  | nil => intro w _ hw; exact hw
  | cons op rest ih =>
    intro w h hw
    have h1 := h op (List.mem_cons_self op rest)
    have h2 : ∀ o ∈ rest, o ≠ FsOp.rmTree FsDir.tempDir :=
      fun o ho => h o (List.mem_cons_of_mem _ ho)
    have hs : (applyOp w op).tempFiles.isSome = true := by
      cases op with
      | listDir d => exact hw
      | readFile d n => exact hw
      | writeFile d n c =>
        cases d with
        | schemaFolder => exact hw
        | tempDir =>
          cases htf : w.tempFiles with
          | none => rw [htf] at hw; simp at hw
          | some m => simp [applyOp, htf]
      | mkdtemp => rfl
      | rmTree d =>
        cases d with
        | schemaFolder => exact hw
        | tempDir => exact absurd rfl h1
    exact ih (applyOp w op) h2 hs

/-- Every operation the sandbox copy loop emits is a schema-folder read or a
sandbox write: none touches the folder, removes the sandbox, or creates it. -/
theorem copy_loop_ops (folder : List (Chars × Chars)) (deps : List Chars) :
    ∀ files op, op ∈ (copy_loop folder deps files).1 →
      opTouchesFolder op = false ∧ op ≠ FsOp.rmTree FsDir.tempDir ∧ op ≠ FsOp.mkdtemp := by
  intro files
  induction files with
  | nil => intro op hop; simp [copy_loop] at hop
  | cons f fs ih =>
    intro op hop
    cases hl : folder.lookup f with
    | none => rw [copy_loop, hl] at hop; simp at hop
    | some content =>
      rw [copy_loop, hl] at hop
      simp only [List.mem_cons] at hop
      rcases hop with rfl | rfl | hop
      · exact ⟨rfl, by simp, by simp⟩
      · exact ⟨rfl, by simp, by simp⟩
      · exact ih op hop

/-- The schema-folder reads recorded for the analysis phase touch nothing. -/
theorem readOps_clean (l : List Chars) :
    ∀ op ∈ l.map (fun n => FsOp.readFile FsDir.schemaFolder n), opTouchesFolder op = false := by
  intro op hop
  rcases List.mem_map.mp hop with ⟨n, _, rfl⟩
  rfl

/-- Combined trace analysis of one `Schema` construction: no operation touches
the original folder; a successful construction removes the sandbox; a failed
construction whose trace created the sandbox never removes it. -/
theorem schemaInit_analysis (path : Chars) (stat : FolderStat)
    (folder : List (Chars × Chars)) (ex : Chars → Bool) (engine : Chars → LoadOutcome) :
    (∀ op ∈ (schemaInit path stat folder ex engine).2, opTouchesFolder op = false) ∧
    ((schemaInit path stat folder ex engine).1 = .ok () →
      (applyTrace ⟨folder, none⟩ (schemaInit path stat folder ex engine).2).tempFiles = none) ∧
    ((schemaInit path stat folder ex engine).1 ≠ .ok () →
      FsOp.mkdtemp ∈ (schemaInit path stat folder ex engine).2 →
      (applyTrace ⟨folder, none⟩
          (schemaInit path stat folder ex engine).2).tempFiles.isSome = true) := by
  rcases stat with ⟨p, dir, lst⟩
  cases p with
  | false => refine ⟨?_, ?_, ?_⟩ <;> simp [schemaInit, opTouchesFolder]
  | true =>
  cases dir with
  | false => refine ⟨?_, ?_, ?_⟩ <;> simp [schemaInit, opTouchesFolder]
  | true =>
  cases lst with
  | false => refine ⟨?_, ?_, ?_⟩ <;> simp [schemaInit, opTouchesFolder]
  | true =>
  cases hd : (discover_schemas folder).isEmpty with
  | true => refine ⟨?_, ?_, ?_⟩ <;> simp [schemaInit, hd, opTouchesFolder]
  | false =>
  rcases hm : determine_main_schema (discover_schemas folder)
      (analyze_trees folder ex (discover_schemas folder)).existing with _ | ⟨main, deps⟩
  · have heq : schemaInit path ⟨true, true, true⟩ folder ex engine =
        (.error (.runtimeError noSchemasMsg),
          [FsOp.listDir .schemaFolder, FsOp.listDir .schemaFolder] ++
            (analyze_trees folder ex (discover_schemas folder)).analyzed.map
              (fun n => FsOp.readFile .schemaFolder n)) := by
      simp [schemaInit, hd, hm]
    rw [heq]
    refine ⟨?_, ?_, ?_⟩
    · intro op hop
      rcases List.mem_append.mp hop with h | h
      · rcases List.mem_cons.mp h with rfl | h
        · rfl
        · rcases List.mem_cons.mp h with rfl | h
          · rfl
          · simp at h
      · exact readOps_clean _ op h
    · intro h; simp at h
    · intro _ hmk
      rcases List.mem_append.mp hmk with h | h
      · simp at h
      · rcases List.mem_map.mp h with ⟨n, _, h⟩; simp at h
  · cases hcp : (copy_loop folder deps (main :: deps)).2 with
    | false =>
      have heq : schemaInit path ⟨true, true, true⟩ folder ex engine =
          (.error (.runtimeError failedLoadMissingMsg),
            ([FsOp.listDir .schemaFolder, FsOp.listDir .schemaFolder] ++
              (analyze_trees folder ex (discover_schemas folder)).analyzed.map
                (fun n => FsOp.readFile .schemaFolder n)) ++
              FsOp.mkdtemp :: (copy_loop folder deps (main :: deps)).1) := by
        simp [schemaInit, hd, hm, hcp]
      rw [heq]
      refine ⟨?_, ?_, ?_⟩
      · intro op hop
        rcases List.mem_append.mp hop with h | h
        · rcases List.mem_append.mp h with h | h
          · rcases List.mem_cons.mp h with rfl | h
            · rfl
            · rcases List.mem_cons.mp h with rfl | h
              · rfl
              · simp at h
          · exact readOps_clean _ op h
        · rcases List.mem_cons.mp h with rfl | h
          · rfl
          · exact (copy_loop_ops folder deps _ op h).1
      · intro h; simp at h
      · intro _ _
        rw [applyTrace_append, applyTrace_cons]
        refine applyTrace_temp_isSome _ _ ?_ rfl
        intro op hop
        exact (copy_loop_ops folder deps _ op hop).2.1
    | true =>
      cases hlm : folder.lookup main with
      | none =>
        have heq : schemaInit path ⟨true, true, true⟩ folder ex engine =
            (.error (.runtimeError failedLoadMissingMsg),
              ([FsOp.listDir .schemaFolder, FsOp.listDir .schemaFolder] ++
                (analyze_trees folder ex (discover_schemas folder)).analyzed.map
                  (fun n => FsOp.readFile .schemaFolder n)) ++
                FsOp.mkdtemp :: (copy_loop folder deps (main :: deps)).1) := by
          simp [schemaInit, hd, hm, hcp, hlm]
        rw [heq]
        refine ⟨?_, ?_, ?_⟩
        · intro op hop
          rcases List.mem_append.mp hop with h | h
          · rcases List.mem_append.mp h with h | h
            · rcases List.mem_cons.mp h with rfl | h
              · rfl
              · rcases List.mem_cons.mp h with rfl | h
                · rfl
                · simp at h
            · exact readOps_clean _ op h
          · rcases List.mem_cons.mp h with rfl | h
            · rfl
            · exact (copy_loop_ops folder deps _ op h).1
        · intro h; simp at h
        · intro _ _
          rw [applyTrace_append, applyTrace_cons]
          refine applyTrace_temp_isSome _ _ ?_ rfl
          intro op hop
          exact (copy_loop_ops folder deps _ op hop).2.1
      | some mainContent =>
        cases he : engine (fix_schema_imports mainContent deps) with
        | ok =>
          have heq : schemaInit path ⟨true, true, true⟩ folder ex engine =
              (.ok (),
                ((([FsOp.listDir .schemaFolder, FsOp.listDir .schemaFolder] ++
                  (analyze_trees folder ex (discover_schemas folder)).analyzed.map
                    (fun n => FsOp.readFile .schemaFolder n)) ++
                  FsOp.mkdtemp :: (copy_loop folder deps (main :: deps)).1) ++
                  [FsOp.readFile .tempDir main]) ++ [FsOp.rmTree .tempDir]) := by
            simp [schemaInit, hd, hm, hcp, hlm, he]
          rw [heq]
          refine ⟨?_, ?_, ?_⟩
          · intro op hop
            rcases List.mem_append.mp hop with h | h
            · rcases List.mem_append.mp h with h | h
              · rcases List.mem_append.mp h with h | h
                · rcases List.mem_append.mp h with h | h
                  · rcases List.mem_cons.mp h with rfl | h
                    · rfl
                    · rcases List.mem_cons.mp h with rfl | h
                      · rfl
                      · simp at h
                  · exact readOps_clean _ op h
                · rcases List.mem_cons.mp h with rfl | h
                  · rfl
                  · exact (copy_loop_ops folder deps _ op h).1
              · rcases List.mem_singleton.mp h with rfl; rfl
            · rcases List.mem_singleton.mp h with rfl; rfl
          · intro _
            rw [applyTrace_append]
            rfl
          · intro h; exact absurd rfl h
        | xmlSyntaxError m =>
          have heq : schemaInit path ⟨true, true, true⟩ folder ex engine =
              (.error (.runtimeError (failedLoadPrefix ++ m)),
                (([FsOp.listDir .schemaFolder, FsOp.listDir .schemaFolder] ++
                  (analyze_trees folder ex (discover_schemas folder)).analyzed.map
                    (fun n => FsOp.readFile .schemaFolder n)) ++
                  FsOp.mkdtemp :: (copy_loop folder deps (main :: deps)).1) ++
                  [FsOp.readFile .tempDir main]) := by
            simp [schemaInit, hd, hm, hcp, hlm, he]
          rw [heq]
          refine ⟨?_, ?_, ?_⟩
          · intro op hop
            rcases List.mem_append.mp hop with h | h
            · rcases List.mem_append.mp h with h | h
              · rcases List.mem_append.mp h with h | h
                · rcases List.mem_cons.mp h with rfl | h
                  · rfl
                  · rcases List.mem_cons.mp h with rfl | h
                    · rfl
                    · simp at h
                · exact readOps_clean _ op h
              · rcases List.mem_cons.mp h with rfl | h
                · rfl
                · exact (copy_loop_ops folder deps _ op h).1
            · rcases List.mem_singleton.mp h with rfl; rfl
          · intro h; simp at h
          · intro _ _
            have hassoc :
                (([FsOp.listDir FsDir.schemaFolder, FsOp.listDir FsDir.schemaFolder] ++
                  (analyze_trees folder ex (discover_schemas folder)).analyzed.map
                    (fun n => FsOp.readFile FsDir.schemaFolder n)) ++
                  FsOp.mkdtemp :: (copy_loop folder deps (main :: deps)).1) ++
                  [FsOp.readFile FsDir.tempDir main] =
                ([FsOp.listDir FsDir.schemaFolder, FsOp.listDir FsDir.schemaFolder] ++
                  (analyze_trees folder ex (discover_schemas folder)).analyzed.map
                    (fun n => FsOp.readFile FsDir.schemaFolder n)) ++
                  FsOp.mkdtemp :: ((copy_loop folder deps (main :: deps)).1 ++
                    [FsOp.readFile FsDir.tempDir main]) := by
              simp
            rw [hassoc, applyTrace_append, applyTrace_cons]
            refine applyTrace_temp_isSome _ _ ?_ rfl
            intro op hop
            rcases List.mem_append.mp hop with h | h
            · exact (copy_loop_ops folder deps _ op h).2.1
            · rcases List.mem_singleton.mp h with rfl; simp
        | schemaParseError m =>
          have heq : schemaInit path ⟨true, true, true⟩ folder ex engine =
              (.error (.attributeError noneTypeNameMsg),
                (([FsOp.listDir .schemaFolder, FsOp.listDir .schemaFolder] ++
                  (analyze_trees folder ex (discover_schemas folder)).analyzed.map
                    (fun n => FsOp.readFile .schemaFolder n)) ++
                  FsOp.mkdtemp :: (copy_loop folder deps (main :: deps)).1) ++
                  [FsOp.readFile .tempDir main]) := by
            simp [schemaInit, hd, hm, hcp, hlm, he]
          rw [heq]
          refine ⟨?_, ?_, ?_⟩
          · intro op hop
            rcases List.mem_append.mp hop with h | h
            · rcases List.mem_append.mp h with h | h
              · rcases List.mem_append.mp h with h | h
                · rcases List.mem_cons.mp h with rfl | h
                  · rfl
                  · rcases List.mem_cons.mp h with rfl | h
                    · rfl
                    · simp at h
                · exact readOps_clean _ op h
              · rcases List.mem_cons.mp h with rfl | h
                · rfl
                · exact (copy_loop_ops folder deps _ op h).1
            · rcases List.mem_singleton.mp h with rfl; rfl
          · intro h; simp at h
          · intro _ _
            have hassoc :
                (([FsOp.listDir FsDir.schemaFolder, FsOp.listDir FsDir.schemaFolder] ++
                  (analyze_trees folder ex (discover_schemas folder)).analyzed.map
                    (fun n => FsOp.readFile FsDir.schemaFolder n)) ++
                  FsOp.mkdtemp :: (copy_loop folder deps (main :: deps)).1) ++
                  [FsOp.readFile FsDir.tempDir main] =
                ([FsOp.listDir FsDir.schemaFolder, FsOp.listDir FsDir.schemaFolder] ++
                  (analyze_trees folder ex (discover_schemas folder)).analyzed.map
                    (fun n => FsOp.readFile FsDir.schemaFolder n)) ++
                  FsOp.mkdtemp :: ((copy_loop folder deps (main :: deps)).1 ++
                    [FsOp.readFile FsDir.tempDir main]) := by
              simp
            rw [hassoc, applyTrace_append, applyTrace_cons]
            refine applyTrace_temp_isSome _ _ ?_ rfl
            intro op hop
            rcases List.mem_append.mp hop with h | h
            · exact (copy_loop_ops folder deps _ op h).2.1
            · rcases List.mem_singleton.mp h with rfl; simp

/-- C7: a resolution-and-validation pass never writes inside the original
schema folder and never mutates any original schema file: no emitted operation
writes to or removes the folder, and after running the pass's whole trace —
on success and on failure alike — the folder's contents are unchanged. -/
theorem schemaInit_frame (path : Chars) (stat : FolderStat) (folder : List (Chars × Chars))
    (ex : Chars → Bool) (engine : Chars → LoadOutcome) :
    (∀ op ∈ (schemaInit path stat folder ex engine).2, opTouchesFolder op = false) ∧
    (applyTrace ⟨folder, none⟩ (schemaInit path stat folder ex engine).2).folderFiles =
      folder := by
  have h := (schemaInit_analysis path stat folder ex engine).1
  exact ⟨h, applyTrace_folder_eq _ _ h⟩

/-- Witness for C7: the two-file scenario folder, with an engine that accepts
the schema, touches nothing in the folder. -/
theorem schemaInit_frame_witness :
    (applyTrace ⟨egFolderMainCommon, none⟩
        (schemaInit egPath statOk egFolderMainCommon exNone engineOk).2).folderFiles =
      egFolderMainCommon ∧
    opTouchesFolder (FsOp.writeFile FsDir.schemaFolder mainName []) = true :=
  ⟨(schemaInit_frame egPath statOk egFolderMainCommon exNone engineOk).2, by decide⟩

/-- C2 (amended): the cleanup step is not unconditional — it runs exactly on
the fully successful path.  After a successful construction the sandbox
directory no longer exists; after a failure whose run had already created the
sandbox (its trace contains the `mkdtemp`), the sandbox still exists on disk
when the error propagates. -/
theorem schemaInit_cleanup_on_success (path : Chars) (stat : FolderStat)
    (folder : List (Chars × Chars)) (ex : Chars → Bool) (engine : Chars → LoadOutcome) :
    ((schemaInit path stat folder ex engine).1 = .ok () →
      (applyTrace ⟨folder, none⟩ (schemaInit path stat folder ex engine).2).tempFiles =
        none) ∧
    ((schemaInit path stat folder ex engine).1 ≠ .ok () →
      FsOp.mkdtemp ∈ (schemaInit path stat folder ex engine).2 →
      (applyTrace ⟨folder, none⟩
          (schemaInit path stat folder ex engine).2).tempFiles.isSome = true) :=
  ⟨(schemaInit_analysis path stat folder ex engine).2.1,
   (schemaInit_analysis path stat folder ex engine).2.2⟩

/-- Witness for C2 (amended): on the single-schema folder, a successful run
leaves no sandbox behind, and a run failing at schema compilation leaves the
sandbox in place. -/
theorem schemaInit_cleanup_on_success_witness :
    (applyTrace ⟨egFolderSingle, none⟩
        (schemaInit egPath statOk egFolderSingle exNone engineOk).2).tempFiles = none ∧
    (applyTrace ⟨egFolderSingle, none⟩
        (schemaInit egPath statOk egFolderSingle exNone engineParseErr).2).tempFiles.isSome =
      true :=
  ⟨(schemaInit_cleanup_on_success egPath statOk egFolderSingle exNone engineOk).1 (by decide),
   (schemaInit_cleanup_on_success egPath statOk egFolderSingle exNone engineParseErr).2
     (by decide) (by decide)⟩

/-- C9: given a folder path, construction fails with the not-found
`FileNotFoundError` if the path does not exist — with no temporary directory
ever created — with the `ValueError` if it exists but is not a directory, with
the `PermissionError` if its contents cannot be listed, and with the
no-schemas-found `FileNotFoundError` if no `.xsd` file lies directly inside;
otherwise discovery returns exactly the folder entries whose name ends in
`.xsd`. -/
theorem folder_validation_spec (path : Chars) (stat : FolderStat)
    (folder : List (Chars × Chars)) (ex : Chars → Bool) (engine : Chars → LoadOutcome) :
    (stat.present = false →
      (schemaInit path stat folder ex engine).1 =
        .error (.fileNotFoundError (folderNotFoundMsg path)) ∧
      FsOp.mkdtemp ∉ (schemaInit path stat folder ex engine).2) ∧
    (stat.present = true → stat.isDir = false →
      (schemaInit path stat folder ex engine).1 =
        .error (.valueError (notADirectoryMsg path))) ∧
    (stat.present = true → stat.isDir = true → stat.listable = false →
      (schemaInit path stat folder ex engine).1 =
        .error (.permissionError (cannotAccessMsg path))) ∧
    (stat.present = true → stat.isDir = true → stat.listable = true →
      discover_schemas folder = [] →
      (schemaInit path stat folder ex engine).1 =
        .error (.fileNotFoundError (noXsdMsg path))) ∧
    (∀ n, n ∈ discover_schemas folder ↔
      n ∈ folder.map Prod.fst ∧ xsdLit.isSuffixOf n = true) := by
  refine ⟨?_, ?_, ?_, ?_, ?_⟩
  · intro hp
    constructor
    · simp [schemaInit, hp]
    · simp [schemaInit, hp]
  · intro hp hdir
    simp [schemaInit, hp, hdir]
  · intro hp hdir hlst
    simp [schemaInit, hp, hdir, hlst]
  · intro hp hdir hlst hds
    simp [schemaInit, hp, hdir, hlst, hds]
  · intro n
    simp [discover_schemas, List.mem_filter]

/-- Witness for C9: a missing folder fails with the not-found error and no
`mkdtemp`; an empty folder fails with the no-schemas-found error; discovery on
the two-file folder returns both names. -/
theorem folder_validation_spec_witness :
    (schemaInit egPath ⟨false, true, true⟩ egFolderSingle exNone engineOk).1 =
      .error (.fileNotFoundError (folderNotFoundMsg egPath)) ∧
    FsOp.mkdtemp ∉ (schemaInit egPath ⟨false, true, true⟩ egFolderSingle exNone engineOk).2 ∧
    (schemaInit egPath ⟨true, false, true⟩ egFolderSingle exNone engineOk).1 =
      .error (.valueError (notADirectoryMsg egPath)) ∧
    (schemaInit egPath ⟨true, true, false⟩ egFolderSingle exNone engineOk).1 =
      .error (.permissionError (cannotAccessMsg egPath)) ∧
    (schemaInit egPath statOk [] exNone engineOk).1 =
      .error (.fileNotFoundError (noXsdMsg egPath)) ∧
    (mainName ∈ discover_schemas egFolderMainCommon ↔
      mainName ∈ egFolderMainCommon.map Prod.fst ∧ xsdLit.isSuffixOf mainName = true) := by
  have h1 := (folder_validation_spec egPath ⟨false, true, true⟩ egFolderSingle exNone
    engineOk).1 (by decide)
  have h2 := (folder_validation_spec egPath ⟨true, false, true⟩ egFolderSingle exNone
    engineOk).2.1 (by decide) (by decide)
  have h3 := (folder_validation_spec egPath ⟨true, true, false⟩ egFolderSingle exNone
    engineOk).2.2.1 (by decide) (by decide) (by decide)
  have h4 := (folder_validation_spec egPath statOk [] exNone
    engineOk).2.2.2.1 (by decide) (by decide) (by decide) (by decide)
  have h5 := (folder_validation_spec egPath statOk egFolderMainCommon exNone
    engineOk).2.2.2.2 mainName
  exact ⟨h1.1, h1.2, h2, h3, h4, h5⟩

/-- Membership in the set-accumulating deduplication. -/
theorem mem_dedupAux (x : Chars) : ∀ (l seen : List Chars),
    x ∈ dedupAux seen l ↔ x ∈ l ∧ x ∉ seen := by
  intro l
  induction l with
  | nil => intro seen; simp [dedupAux]
  | cons y ys ih =>
    intro seen
    by_cases hy : y ∈ seen
    · rw [dedupAux, if_pos hy, ih]
      constructor
      · rintro ⟨hx, hns⟩; exact ⟨List.mem_cons_of_mem _ hx, hns⟩
      · rintro ⟨hx, hns⟩
        rcases List.mem_cons.mp hx with rfl | hx
        · exact absurd hy hns
        · exact ⟨hx, hns⟩
    · rw [dedupAux, if_neg hy]
      constructor
      · intro hmem
        rcases List.mem_cons.mp hmem with rfl | hmem
        · exact ⟨List.mem_cons_self _ _, hy⟩
        · rcases (ih (y :: seen)).mp hmem with ⟨hx, hns⟩
          exact ⟨List.mem_cons_of_mem _ hx,
            fun hseen => hns (List.mem_cons_of_mem _ hseen)⟩
      · rintro ⟨hx, hns⟩
        rcases List.mem_cons.mp hx with rfl | hx
        · exact List.mem_cons_self _ _
        · by_cases hxy : x = y
          · subst hxy; exact List.mem_cons_self _ _
          · refine List.mem_cons_of_mem _ ((ih (y :: seen)).mpr ⟨hx, ?_⟩)
            intro hmem
            rcases List.mem_cons.mp hmem with h | h
            · exact hxy h
            · exact hns h

/-- The deduplicated list has no duplicates. -/
theorem nodup_dedupAux : ∀ (l seen : List Chars), (dedupAux seen l).Nodup := by
  intro l
  induction l with
  | nil => intro seen; simp [dedupAux]
  | cons y ys ih =>
    intro seen
    by_cases hy : y ∈ seen
    · rw [dedupAux, if_pos hy]; exact ih seen
    · rw [dedupAux, if_neg hy]
      refine List.nodup_cons.mpr ⟨fun hmem => ?_, ih (y :: seen)⟩
      rcases (mem_dedupAux y ys (y :: seen)).mp hmem with ⟨_, hns⟩
      exact hns (List.mem_cons_self y seen)

/-- `dedupFirst` preserves membership. -/
theorem mem_dedupFirst (x : Chars) (l : List Chars) : x ∈ dedupFirst l ↔ x ∈ l := by
  simp [dedupFirst, mem_dedupAux]

/-- `dedupFirst` produces a duplicate-free list. -/
theorem nodup_dedupFirst (l : List Chars) : (dedupFirst l).Nodup := nodup_dedupAux l []

/-- Invariants of the selection fold of `_determine_main_schema`: either nothing
beat the initial bound, or the result is the first element of the strictly
largest dependency count — every earlier element counts strictly less, every
later element counts no more. -/
theorem select_fold_spec (trees : List (Chars × DepTree)) :
    ∀ (l : List Chars) (b0 : Chars) (m0 : Int),
      (l.foldl (select_step trees) (b0, m0) = (b0, m0) ∧
        ∀ x ∈ l, (dep_count trees x : Int) ≤ m0) ∨
      (∃ l1 l2, l = l1 ++ (l.foldl (select_step trees) (b0, m0)).1 :: l2 ∧
        (l.foldl (select_step trees) (b0, m0)).2 =
          (dep_count trees (l.foldl (select_step trees) (b0, m0)).1 : Int) ∧
        m0 < (l.foldl (select_step trees) (b0, m0)).2 ∧
        (∀ x ∈ l1, (dep_count trees x : Int) < (l.foldl (select_step trees) (b0, m0)).2) ∧
        (∀ x ∈ l2, (dep_count trees x : Int) ≤ (l.foldl (select_step trees) (b0, m0)).2)) := by
  intro l
  induction l with
  | nil => intro b0 m0; left; exact ⟨rfl, by simp⟩
  | cons y ys ih =>
    intro b0 m0
    rw [List.foldl_cons]
    by_cases hy : m0 < (dep_count trees y : Int)
    · have hstep : select_step trees (b0, m0) y = (y, (dep_count trees y : Int)) := by
        simp [select_step, hy]
      rw [hstep]
      rcases ih y (dep_count trees y : Int) with ⟨heq, hall⟩ |
        ⟨l1, l2, hsplit, hcnt, hlt, hbefore, hafter⟩
      · right
        refine ⟨[], ys, ?_, ?_, ?_, ?_, ?_⟩
        · rw [heq]; rfl
        · rw [heq]
        · rw [heq]; exact hy
        · simp
        · intro x hx; rw [heq]; exact hall x hx
      · right
        refine ⟨y :: l1, l2, ?_, hcnt, lt_trans hy hlt, ?_, hafter⟩
        · rw [List.cons_append, ← hsplit]
        · intro x hx
          rcases List.mem_cons.mp hx with rfl | hx
          · exact hlt
          · exact hbefore x hx
    · have hstep : select_step trees (b0, m0) y = (b0, m0) := by
        simp [select_step, hy]
      rw [hstep]
      rcases ih b0 m0 with ⟨heq, hall⟩ | ⟨l1, l2, hsplit, hcnt, hlt, hbefore, hafter⟩
      · left
        refine ⟨heq, ?_⟩
        intro x hx
        rcases List.mem_cons.mp hx with rfl | hx
        · exact le_of_not_lt hy
        · exact hall x hx
      · right
        refine ⟨y :: l1, l2, ?_, hcnt, hlt, ?_, hafter⟩
        · rw [List.cons_append, ← hsplit]
        · intro x hx
          rcases List.mem_cons.mp hx with rfl | hx
          · exact lt_of_le_of_lt (le_of_not_lt hy) hlt
          · exact hbefore x hx

/-- `_determine_main_schema` on a non-empty list returns the first element
achieving the strictly largest dependency count, and as dependencies every
listed name other than the chosen one. -/
theorem determine_main_schema_argmax (trees : List (Chars × DepTree)) (all : List Chars)
    (hne : all ≠ []) :
    ∃ main deps l1 l2,
      determine_main_schema all trees = some (main, deps) ∧
      deps = all.filter (fun s => s != main) ∧
      all = l1 ++ main :: l2 ∧
      (∀ x ∈ l1, dep_count trees x < dep_count trees main) ∧
      (∀ x ∈ all, dep_count trees x ≤ dep_count trees main) := by
  cases all with
  | nil => exact absurd rfl hne
  | cons first rest =>
    rcases select_fold_spec trees (first :: rest) first (-1) with ⟨_, hall⟩ |
      ⟨l1, l2, hsplit, hcnt, _, hbefore, hafter⟩
    · have h0 := hall first (List.mem_cons_self _ _)
      have : (0 : Int) ≤ (dep_count trees first : Int) := Int.natCast_nonneg _
      omega
    · refine ⟨((first :: rest).foldl (select_step trees) (first, -1)).1,
        (first :: rest).filter
          (fun s => s != ((first :: rest).foldl (select_step trees) (first, -1)).1),
        l1, l2, rfl, rfl, hsplit, ?_, ?_⟩
      · intro x hx
        have := hbefore x hx
        rw [hcnt] at this
        exact_mod_cast this
      · intro x hx
        rw [hsplit] at hx
        rcases List.mem_append.mp hx with hx | hx
        · exact le_of_lt (by have := hbefore x hx; rw [hcnt] at this; exact_mod_cast this)
        · rcases List.mem_cons.mp hx with rfl | hx
          · exact le_refl _
          · have := hafter x hx
            rw [hcnt] at this
            exact_mod_cast this

/-- C4: on every non-empty discovered set, the Main-Schema Selector counts the
distinct filenames reachable in each file's dependency tree, chooses the file
with the strictly largest count (keeping the first-encountered candidate on
ties, i.e. every earlier candidate counts strictly less), and returns every
other discovered filename as the dependencies; in particular, for a three-file
set where `X` transitively reaches exactly `Y` and `Z` and `Y` and `Z` reach
nothing, it chooses `X` regardless of listing order with `{Y, Z}` as
dependencies. -/
theorem determine_main_schema_spec :
    (∀ (trees : List (Chars × DepTree)) (all : List Chars), all ≠ [] →
      ∃ main deps l1 l2,
        determine_main_schema all trees = some (main, deps) ∧
        deps = all.filter (fun s => s != main) ∧
        all = l1 ++ main :: l2 ∧
        (∀ x ∈ l1, dep_count trees x < dep_count trees main) ∧
        (∀ x ∈ all, dep_count trees x ≤ dep_count trees main)) ∧
    (∀ (trees : List (Chars × DepTree)) (X Y Z : Chars) (all : List Chars),
      X ≠ Y → X ≠ Z → Y ≠ Z → all.Perm [X, Y, Z] →
      (∀ n, n ∈ get_all_deps_from_tree ((trees.lookup X).getD (DepTree.node [])) ↔
        (n = Y ∨ n = Z)) →
      get_all_deps_from_tree ((trees.lookup Y).getD (DepTree.node [])) = [] →
      get_all_deps_from_tree ((trees.lookup Z).getD (DepTree.node [])) = [] →
      ∃ deps, determine_main_schema all trees = some (X, deps) ∧
        ∀ n, (n ∈ deps ↔ (n = Y ∨ n = Z))) := by
  constructor
  · exact determine_main_schema_argmax
  · intro trees X Y Z all hXY hXZ hYZ hperm hreachX hreachY hreachZ
    have cX : dep_count trees X = 2 := by
      have hd : List.Perm
          (dedupFirst (get_all_deps_from_tree ((trees.lookup X).getD (DepTree.node []))))
          [Y, Z] := by
        apply List.perm_of_nodup_nodup_toFinset_eq (nodup_dedupFirst _)
        · simp [hYZ]
        · ext a
          simp only [List.mem_toFinset, mem_dedupFirst, hreachX, List.mem_cons,
            List.mem_singleton, List.not_mem_nil, or_false]
      simpa [dep_count] using hd.length_eq
    have cY : dep_count trees Y = 0 := by
      simp [dep_count, hreachY, dedupFirst, dedupAux]
    have cZ : dep_count trees Z = 0 := by
      simp [dep_count, hreachZ, dedupFirst, dedupAux]
    have hlen : all ≠ [] := by
      intro h
      have := hperm.length_eq
      rw [h] at this
      simp at this
    rcases determine_main_schema_argmax trees all hlen with
      ⟨main, deps, l1, l2, hdet, hdeps, hsplit, _, hmax⟩
    have hmainall : main ∈ all := by
      rw [hsplit]
      exact List.mem_append.mpr (Or.inr (List.mem_cons_self _ _))
    have hXall : X ∈ all := hperm.mem_iff.mpr (List.mem_cons_self _ _)
    have hmain : main = X := by
      rcases List.mem_cons.mp (hperm.mem_iff.mp hmainall) with rfl | h
      · rfl
      · rcases List.mem_cons.mp h with rfl | h
        · have := hmax X hXall
          rw [cX, cY] at this
          omega
        · rcases List.mem_singleton.mp h with rfl
          have := hmax X hXall
          rw [cX, cZ] at this
          omega
    subst hmain
    refine ⟨deps, hdet, ?_⟩
    intro n
    rw [hdeps]
    constructor
    · intro hn
      rcases List.mem_filter.mp hn with ⟨hnall, hne⟩
      rcases List.mem_cons.mp (hperm.mem_iff.mp hnall) with rfl | h
      · simp at hne
      · rcases List.mem_cons.mp h with rfl | h
        · exact Or.inl rfl
        · rcases List.mem_singleton.mp h with rfl
          exact Or.inr rfl
    · rintro (rfl | rfl)
      · refine List.mem_filter.mpr ⟨hperm.mem_iff.mpr (by simp), ?_⟩
        simp [Ne.symm hXY]
      · refine List.mem_filter.mpr ⟨hperm.mem_iff.mpr (by simp), ?_⟩
        simp [Ne.symm hXZ]

/-- Witness for C4: with `X.xsd` reaching `{Y.xsd, Z.xsd}` and the listing
order `[Y.xsd, Z.xsd, X.xsd]`, the selector still picks `X.xsd` and returns the
other two as dependencies. -/
theorem determine_main_schema_spec_witness :
    determine_main_schema [yName, zName, xName] egSelTrees = some (xName, [yName, zName]) := by
  rcases determine_main_schema_spec.2 egSelTrees xName yName zName [yName, zName, xName]
      (by decide) (by decide) (by decide) (by decide)
      (by intro n; simp [egSelTrees, List.lookup, get_all_deps_from_tree, depsOfChildren,
        xName, yName, zName])
      (by simp [egSelTrees, List.lookup, get_all_deps_from_tree, depsOfChildren,
        xName, yName, zName])
      (by simp [egSelTrees, List.lookup, get_all_deps_from_tree, depsOfChildren,
        xName, yName, zName]) with ⟨deps, hdet, hmem⟩
  have hc : determine_main_schema [yName, zName, xName] egSelTrees =
      some (xName, [yName, zName]) := by decide
  exact hc

/-- Unfolding `matchGaps` on an empty pattern list. -/
theorem matchGaps_nil (s : Chars) : matchGaps [] s = some 0 := rfl

/-- Unfolding `matchGaps` on a non-empty pattern list. -/
theorem matchGaps_cons (p : Chars) (ps : List Chars) (s : Chars) :
    matchGaps (p :: ps) s = tryGapAt (matchGaps ps) p s (quoteFreeLen s) := rfl

/-- A successful greedy gap search comes from some gap length at most `k`. -/
theorem tryGapAt_sound (next : Chars → Option Nat) (p s : Chars) :
    ∀ k n, tryGapAt next p s k = some n →
      ∃ k0, k0 ≤ k ∧ gapAttempt next p s k0 = some n := by
  intro k
  induction k with
  | zero => intro n h; exact ⟨0, le_refl 0, h⟩
  | succ k ih =>
    intro n h
    rw [tryGapAt] at h
    cases hg : gapAttempt next p s (k + 1) with
    | some n' =>
      rw [hg] at h
      cases h
      exact ⟨k + 1, le_refl _, hg⟩
    | none =>
      rw [hg] at h
      rcases ih n h with ⟨k0, hk0, hatt⟩
      exact ⟨k0, le_trans hk0 (Nat.le_succ k), hatt⟩

/-- A successful single gap attempt decomposes into literal match plus rest. -/
theorem gapAttempt_sound (next : Chars → Option Nat) (p s : Chars) (k n : Nat)
    (h : gapAttempt next p s k = some n) :
    p.isPrefixOf (s.drop k) = true ∧
      ∃ m, next (s.drop (k + p.length)) = some m ∧ n = k + p.length + m := by
  rw [gapAttempt] at h
  by_cases hp : p.isPrefixOf (s.drop k) = true
  · rw [if_pos hp] at h
    rcases Option.map_eq_some'.mp h with ⟨m, hm, hn⟩
    exact ⟨hp, m, hm, hn.symm⟩
  · rw [if_neg hp] at h
    cases h

/-- Characters inside the maximal run all satisfy the run predicate. -/
theorem runLen_take (p : Char → Bool) :
    ∀ (s : Chars) (k : Nat), k ≤ runLen p s → ∀ c ∈ s.take k, p c = true := by
  intro s
  induction s with
  | nil => intro k _ c hc; simp at hc
  | cons a as ih =>
    intro k hk c hc
    cases k with
    | zero => simp at hc
    | succ k =>
      rw [runLen] at hk
      by_cases hpa : p a = true
      · rw [if_pos hpa] at hk
        rw [List.take_succ_cons] at hc
        rcases List.mem_cons.mp hc with rfl | hc
        · exact hpa
        · exact ih k (Nat.le_of_succ_le_succ hk) c hc
      · rw [if_neg hpa] at hk
        omega

/-- A successful `matchGaps` on `x :: xs` splits off a quote-free gap, the
literal `x`, and a remainder matched by `xs`. -/
theorem matchGaps_cons_sound (x : Chars) (xs : List Chars) (s : Chars) (n : Nat)
    (hx : x ≠ []) (h : matchGaps (x :: xs) s = some n) :
    ∃ g t m, (∀ c ∈ g, c ≠ '"') ∧ s = g ++ x ++ t ∧ matchGaps xs t = some m ∧
      n = g.length + x.length + m := by
  rw [matchGaps_cons] at h
  rcases tryGapAt_sound (matchGaps xs) x s (quoteFreeLen s) n h with ⟨k0, hk0, hatt⟩
  rcases gapAttempt_sound (matchGaps xs) x s k0 n hatt with ⟨hpre, m, hnext, hn⟩
  rcases List.isPrefixOf_iff_prefix.mp hpre with ⟨t, ht⟩
  have hklt : k0 < s.length := by
    by_contra hge
    have : s.drop k0 = [] := List.drop_eq_nil_iff.mpr (by omega)
    rw [this] at ht
    exact hx (List.append_eq_nil.mp ht).1
  have htake : (s.take k0).length = k0 := by
    rw [List.length_take]
    omega
  refine ⟨s.take k0, t, m, ?_, ?_, ?_, ?_⟩
  · intro c hc
    have := runLen_take (fun c => c != '"') s k0 hk0 c hc
    exact bne_iff_ne.mp this
  · conv_lhs => rw [← List.take_append_drop k0 s]
    rw [← ht, List.append_assoc]
  · have hdd : s.drop (k0 + x.length) = t := by
      have h1 : s.drop (k0 + x.length) = (s.drop k0).drop x.length := by
        rw [List.drop_drop, Nat.add_comm]
      rw [h1, ← ht, List.drop_left]
    rw [hdd] at hnext
    exact hnext
  · rw [htake]
    exact hn

/-- Unfolding `matchSeqAt` on an anchored `schemaLocation="` pattern. -/
theorem matchSeq_loc_decomp (rest : List Chars) (t : Chars) (n : Nat)
    (h : matchSeqAt (locLit :: rest) t = some n) :
    ∃ u m, t = locLit ++ u ∧ matchGaps rest u = some m ∧ n = locLit.length + m := by
  rw [matchSeqAt] at h
  by_cases hpre : locLit.isPrefixOf t = true
  · rw [if_pos hpre] at h
    rcases Option.map_eq_some'.mp h with ⟨m, hm, hn⟩
    rcases List.isPrefixOf_iff_prefix.mp hpre with ⟨u, hu⟩
    have hdrop : t.drop locLit.length = u := by rw [← hu, List.drop_left]
    rw [hdrop] at hm
    exact ⟨u, m, hu.symm, hm, hn.symm⟩
  · rw [if_neg hpre] at h
    cases h

/-- `takeWhile` runs through a satisfying block and stops at the first failure. -/
theorem takeWhile_run (q : Char → Bool) :
    ∀ (a r : Chars) (b : Char), (∀ c ∈ a, q c = true) → q b = false →
      (a ++ b :: r).takeWhile q = a := by
  intro a
  induction a with
  | nil => intro r b _ hb; simp [List.takeWhile_cons, hb]
  | cons c cs ih =>
    intro r b h hb
    have hqc := h c (List.mem_cons_self _ _)
    rw [List.cons_append, List.takeWhile_cons, if_pos hqc,
      ih r b (fun x hx => h x (List.mem_cons_of_mem _ hx)) hb]

/-- The value scanned at a `schemaLocation="` occurrence heads the value list. -/
theorem schemaLocations_head_mem (t : Chars) (h : locLit.isPrefixOf t = true) :
    ((t.drop locLit.length).takeWhile (fun x => x != '"')) ∈ schemaLocations t := by
  cases t with
  | nil => exact absurd h (by decide)
  | cons c cs =>
    rw [schemaLocations, if_pos h]
    exact List.mem_cons_self _ _

/-- Values scanned in a suffix are scanned in the whole text. -/
theorem schemaLocations_mem_append (u : Chars) :
    ∀ t v, v ∈ schemaLocations t → v ∈ schemaLocations (u ++ t) := by
  induction u with
  | nil => intro t v hv; exact hv
  | cons c u' ih =>
    intro t v hv
    have h2 := ih t v hv
    by_cases hc : locLit.isPrefixOf (c :: (u' ++ t)) = true
    · rw [List.cons_append, schemaLocations, if_pos hc]
      exact List.mem_cons_of_mem _ h2
    · rw [List.cons_append, schemaLocations, if_neg hc]
      exact h2

/-- Characters of the stripped base name come from the dependency name. -/
theorem mem_replaceAllSubF_empty (pat : Chars) :
    ∀ (fuel : Nat) (s : Chars) (c : Char), c ∈ replaceAllSubF pat [] fuel s → c ∈ s := by
  intro fuel
  induction fuel with
  | zero =>
    intro s c hc
    cases s with
    | nil => simp [replaceAllSubF] at hc
    | cons a as => exact hc
  | succ fuel ih =>
    intro s c hc
    cases s with
    | nil => simp [replaceAllSubF] at hc
    | cons a as =>
      cases pat with
      | nil => exact hc
      | cons p0 prest =>
        rw [replaceAllSubF] at hc
        by_cases hp : (p0 :: prest).isPrefixOf (a :: as) = true
        · rw [if_pos hp] at hc
          rw [List.nil_append] at hc
          have := ih (as.drop prest.length) c hc
          exact List.mem_cons_of_mem _ (List.mem_of_mem_drop this)
        · rw [if_neg hp] at hc
          rcases List.mem_cons.mp hc with rfl | hc
          · exact List.mem_cons_self _ _
          · exact List.mem_cons_of_mem _ (ih as c hc)

/-- Characters of `baseName dep` all occur in `dep`. -/
theorem mem_baseName (dep : Chars) (c : Char) (hc : c ∈ baseName dep) : c ∈ dep := by
  have h1 := mem_replaceAllSubF_empty xsdLit _ _ c hc
  exact mem_replaceAllSubF_empty schemaXsdLit _ _ c h1

/-- A quote-free block before the closing quote is the scanned value. -/
theorem loc_value_mem (t u : Chars) (htu : t = locLit ++ u) (a r : Chars)
    (hu : u = a ++ '"' :: r) (ha : ∀ c ∈ a, c ≠ '"') :
    a ∈ schemaLocations t := by
  have hpre : locLit.isPrefixOf t = true := by
    rw [htu]
    exact List.isPrefixOf_iff_prefix.mpr ⟨u, rfl⟩
  have hdrop : t.drop locLit.length = u := by rw [htu, List.drop_left]
  have hval : u.takeWhile (fun x => x != '"') = a := by
    rw [hu]
    exact takeWhile_run _ a r '"' (fun c hc => bne_iff_ne.mpr (ha c hc)) (by decide)
  have hmem := schemaLocations_head_mem t hpre
  rw [hdrop, hval] at hmem
  exact hmem

/-- A match of the first substitution pattern on a text whose references obey
the proper-suffix condition is an identity replacement. -/
theorem pat1_match (dep t : Chars) (n : Nat) (hdq : '"' ∉ dep)
    (hs : ∀ v ∈ schemaLocations t, dep.isSuffixOf v = true → v = dep)
    (hm : matchSeqAt [locLit, dep ++ [quoteChar]] t = some n) :
    depReplacement dep = t.take n := by
  rcases matchSeq_loc_decomp _ t n hm with ⟨u, m, htu, hmg, hn⟩
  rcases matchGaps_cons_sound (dep ++ [quoteChar]) [] u m (by simp) hmg with
    ⟨g, t1, m1, hgq, hu, hmg1, hm1⟩
  have hm10 : m1 = 0 := by
    rw [matchGaps_nil] at hmg1
    exact (Option.some.inj hmg1).symm
  have hu' : u = (g ++ dep) ++ '"' :: t1 := by
    rw [hu]
    simp [quoteChar]
  have hvq : ∀ c ∈ g ++ dep, c ≠ '"' := by
    intro c hc
    rcases List.mem_append.mp hc with hc | hc
    · exact hgq c hc
    · intro he; subst he; exact hdq hc
  have hvmem : (g ++ dep) ∈ schemaLocations t := loc_value_mem t u htu (g ++ dep) t1 hu' hvq
  have hsuf : dep.isSuffixOf (g ++ dep) = true :=
    List.isSuffixOf_iff_suffix.mpr (List.suffix_append g dep)
  have hveq := hs _ hvmem hsuf
  have hg0 : g = [] := by
    have hlen := congrArg List.length hveq
    rw [List.length_append] at hlen
    have : g.length = 0 := by omega
    exact List.length_eq_zero.mp this
  subst hg0
  have hn' : n = locLit.length + (dep ++ [quoteChar]).length := by
    rw [hn, hm1, hm10]
    simp
  rw [htu, hu, hn', List.nil_append, List.take_append, List.take_left]
  simp [depReplacement, quoteChar]

/-- The second substitution pattern needs a `/` inside the reference, so it
cannot match a text whose references are all bare. -/
theorem pat2_no_match (dep t : Chars) (n : Nat) (hdq : '"' ∉ dep)
    (hb : ∀ v ∈ schemaLocations t, slashChar ∉ v)
    (hm : matchSeqAt
      [locLit, slashChar :: baseName dep, xsdLit ++ [quoteChar]] t = some n) : False := by
  rcases matchSeq_loc_decomp _ t n hm with ⟨u, m, htu, hmg, _⟩
  rcases matchGaps_cons_sound (slashChar :: baseName dep) [xsdLit ++ [quoteChar]] u m
    (by simp) hmg with ⟨g1, t1, m1, hg1, hu1, hmg1, _⟩
  rcases matchGaps_cons_sound (xsdLit ++ [quoteChar]) [] t1 m1 (by simp) hmg1 with
    ⟨g2, t2, m2, hg2, ht1, _, _⟩
  have hu' : u = (g1 ++ slashChar :: ((baseName dep ++ g2) ++ xsdLit)) ++ '"' :: t2 := by
    rw [hu1, ht1]
    simp [quoteChar, slashChar]
  have hvq : ∀ c ∈ g1 ++ slashChar :: ((baseName dep ++ g2) ++ xsdLit), c ≠ '"' := by
    intro c hc
    rcases List.mem_append.mp hc with hc | hc
    · exact hg1 c hc
    · rcases List.mem_cons.mp hc with rfl | hc
      · decide
      · rcases List.mem_append.mp hc with hc | hc
        · rcases List.mem_append.mp hc with hc | hc
          · intro he; subst he; exact hdq (mem_baseName dep _ hc)
          · exact hg2 c hc
        · intro he; subst he; revert hc; decide
  have hvmem := loc_value_mem t u htu _ t2 hu' hvq
  exact hb _ hvmem (by simp)

/-- The third substitution pattern needs a `/` inside the reference, so it
cannot match a text whose references are all bare. -/
theorem pat3_no_match (dep t : Chars) (n : Nat) (hdq : '"' ∉ dep)
    (hb : ∀ v ∈ schemaLocations t, slashChar ∉ v)
    (hm : matchSeqAt [locLit, slashChar :: (dep ++ [quoteChar])] t = some n) : False := by
  rcases matchSeq_loc_decomp _ t n hm with ⟨u, m, htu, hmg, _⟩
  rcases matchGaps_cons_sound (slashChar :: (dep ++ [quoteChar])) [] u m (by simp) hmg with
    ⟨g, t1, m1, hgq, hu, _, _⟩
  have hu' : u = (g ++ slashChar :: dep) ++ '"' :: t1 := by
    rw [hu]
    simp [quoteChar, slashChar]
  have hvq : ∀ c ∈ g ++ slashChar :: dep, c ≠ '"' := by
    intro c hc
    rcases List.mem_append.mp hc with hc | hc
    · exact hgq c hc
    · rcases List.mem_cons.mp hc with rfl | hc
      · decide
      · intro he; subst he; exact hdq hc
  have hvmem := loc_value_mem t u htu _ t1 hu' hvq
  exact hb _ hvmem (by simp)

/-- The fourth substitution pattern needs a `/` inside the reference, so it
cannot match a text whose references are all bare. -/
theorem pat4_no_match (dep t : Chars) (n : Nat) (hdq : '"' ∉ dep)
    (hb : ∀ v ∈ schemaLocations t, slashChar ∉ v)
    (hm : matchSeqAt
      [locLit, (slashChar :: baseName dep) ++ [slashChar], [quoteChar]] t = some n) :
    False := by
  rcases matchSeq_loc_decomp _ t n hm with ⟨u, m, htu, hmg, _⟩
  rcases matchGaps_cons_sound ((slashChar :: baseName dep) ++ [slashChar]) [[quoteChar]] u m
    (by simp) hmg with ⟨g1, t1, m1, hg1, hu1, hmg1, _⟩
  rcases matchGaps_cons_sound [quoteChar] [] t1 m1 (by simp) hmg1 with
    ⟨g2, t2, m2, hg2, ht1, _, _⟩
  have hu' : u = (g1 ++ slashChar :: ((baseName dep ++ [slashChar]) ++ g2)) ++ '"' :: t2 := by
    rw [hu1, ht1]
    simp [quoteChar, slashChar]
  have hvq : ∀ c ∈ g1 ++ slashChar :: ((baseName dep ++ [slashChar]) ++ g2), c ≠ '"' := by
    intro c hc
    rcases List.mem_append.mp hc with hc | hc
    · exact hg1 c hc
    · rcases List.mem_cons.mp hc with rfl | hc
      · decide
      · rcases List.mem_append.mp hc with hc | hc
        · rcases List.mem_append.mp hc with hc | hc
          · intro he; subst he; exact hdq (mem_baseName dep _ hc)
          · rcases List.mem_singleton.mp hc with rfl; decide
        · exact hg2 c hc
  have hvmem := loc_value_mem t u htu _ t2 hu' hvq
  exact hb _ hvmem (by simp)

/-- The `re.sub` scan is the identity when every match it can find is replaced
by its own text. -/
theorem subAllF_id (parts : List Chars) (repl : Chars) :
    ∀ (fuel : Nat) (s : Chars), s.length ≤ fuel →
      (∀ t, t <:+ s → ∀ n, matchSeqAt parts t = some n → repl = t.take n) →
      subAllF parts repl fuel s = s := by
  intro fuel
  induction fuel with
  | zero =>
    intro s hlen _
    cases s with
    | nil => rfl
    | cons a as => simp at hlen
  | succ fuel ih =>
    intro s hlen hstep
    cases s with
    | nil => rfl
    | cons c cs =>
      have hlen' : cs.length ≤ fuel := by
        simp only [List.length_cons] at hlen
        omega
      have htail : ∀ t, t <:+ cs → ∀ n, matchSeqAt parts t = some n → repl = t.take n :=
        fun t ht n hm => hstep t (ht.trans (List.suffix_cons c cs)) n hm
      cases hm : matchSeqAt parts (c :: cs) with
      | none =>
        simp only [subAllF, hm]
        rw [ih cs hlen' htail]
      | some n =>
        cases n with
        | zero =>
          simp only [subAllF, hm]
          rw [ih cs hlen' htail]
        | succ n =>
          simp only [subAllF, hm]
          have hrepl : repl = (c :: cs).take (n + 1) :=
            hstep (c :: cs) (List.suffix_refl _) (n + 1) hm
          have hdrop : ∀ t, t <:+ cs.drop n → ∀ n', matchSeqAt parts t = some n' →
              repl = t.take n' :=
            fun t ht n' hm' =>
              hstep t (ht.trans ((List.drop_suffix n cs).trans (List.suffix_cons c cs)))
                n' hm'
          have hlen'' : (cs.drop n).length ≤ fuel := by
            rw [List.length_drop]
            omega
          rw [ih (cs.drop n) hlen'' hdrop, hrepl]
          rw [show cs.drop n = (c :: cs).drop (n + 1) from rfl, List.take_append_drop]

/-- The four substitutions for one dependency leave a bare-reference text
unchanged. -/
theorem applyPatterns_id (content dep : Chars) (hdq : '"' ∉ dep)
    (hb : ∀ v ∈ schemaLocations content, slashChar ∉ v)
    (hs : ∀ v ∈ schemaLocations content, dep.isSuffixOf v = true → v = dep) :
    (depPatterns dep).foldl (fun a parts => subAll parts (depReplacement dep) a) content =
      content := by
  have htrans : ∀ t, t <:+ content →
      (∀ v ∈ schemaLocations t, slashChar ∉ v) ∧
      (∀ v ∈ schemaLocations t, dep.isSuffixOf v = true → v = dep) := by
    intro t ht
    rcases ht with ⟨u, hu⟩
    constructor
    · intro v hv
      exact hb v (hu ▸ schemaLocations_mem_append u t v hv)
    · intro v hv
      exact hs v (hu ▸ schemaLocations_mem_append u t v hv)
  have e1 : subAll [locLit, dep ++ [quoteChar]] (depReplacement dep) content = content := by
    refine subAllF_id _ _ _ _ (le_refl _) ?_
    intro t ht n hm
    exact pat1_match dep t n hdq (htrans t ht).2 hm
  have e2 : subAll [locLit, slashChar :: baseName dep, xsdLit ++ [quoteChar]]
      (depReplacement dep) content = content := by
    refine subAllF_id _ _ _ _ (le_refl _) ?_
    intro t ht n hm
    exact absurd hm (fun hm => pat2_no_match dep t n hdq (htrans t ht).1 hm)
  have e3 : subAll [locLit, slashChar :: (dep ++ [quoteChar])]
      (depReplacement dep) content = content := by
    refine subAllF_id _ _ _ _ (le_refl _) ?_
    intro t ht n hm
    exact absurd hm (fun hm => pat3_no_match dep t n hdq (htrans t ht).1 hm)
  have e4 : subAll [locLit, (slashChar :: baseName dep) ++ [slashChar], [quoteChar]]
      (depReplacement dep) content = content := by
    refine subAllF_id _ _ _ _ (le_refl _) ?_
    intro t ht n hm
    exact absurd hm (fun hm => pat4_no_match dep t n hdq (htrans t ht).1 hm)
  simp only [depPatterns, List.foldl_cons, List.foldl_nil]
  rw [e1, e2, e3, e4]

/-- C8 (amended): for every schema text whose schemaLocation references are
already bare filenames (no `/`), and every dependency list of filenames (no
quote character) none of which is a proper suffix of a reference — every
reference that ends in a dependency filename is exactly that filename — the
Import-Path Normalizer is a no-op: the output text equals the input text. -/
theorem fix_schema_imports_noop (content : Chars) (deps : List Chars)
    (hbare : ∀ v ∈ schemaLocations content, slashChar ∉ v)
    (hq : ∀ dep ∈ deps, quoteChar ∉ dep)
    (hsuffix : ∀ v ∈ schemaLocations content, ∀ dep ∈ deps,
      dep.isSuffixOf v = true → v = dep) :
    fix_schema_imports content deps = content := by
  induction deps with
  | nil => rfl
  | cons dep ds ih =>
    have happ := applyPatterns_id content dep
      (hq dep (List.mem_cons_self _ _)) hbare
      (fun v hv hsf => hsuffix v hv dep (List.mem_cons_self _ _) hsf)
    have htail := ih (fun d hd => hq d (List.mem_cons_of_mem _ hd))
      (fun v hv d hd hsf => hsuffix v hv d (List.mem_cons_of_mem _ hd) hsf)
    calc fix_schema_imports content (dep :: ds)
        = List.foldl (fun acc dep =>
            (depPatterns dep).foldl
              (fun a parts => subAll parts (depReplacement dep) a) acc) content ds := by
          rw [fix_schema_imports, List.foldl_cons, happ]
      _ = content := htail

/-- Witness for C8 (amended): a text whose only reference is exactly the bare
dependency filename is untouched. -/
theorem fix_schema_imports_noop_witness :
    fix_schema_imports egBareCommonText [commonName] = egBareCommonText :=
  fix_schema_imports_noop egBareCommonText [commonName] (by decide) (by decide) (by decide)

end XmlValidator
